import Mathlib

/-!
# Verification of the trustify dependency-graph analysis engine

Shallow embedding of `modules/analysis/src/service/mod.rs` (the analysis
service: cycle guard, query matcher, external-SBOM resolver, orchestrator)
together with the data model it operates on.  Definitions are translated
from the Rust source; parts of the repository that are referenced but whose
source is not available (entity enums, the graph/query model modules, the
collector) are modelled from the specification and marked as such in their
doc comments.
-/

namespace Trustify

/-- Base attributes shared by every graph node variant
(`sbom_id`, `node_id`, `name`).  Modelled from the spec: the
`model::graph` module is not part of the available source; the spec's data
model section gives these fields for every node variant. -/
structure BaseNode where
  sbomId : String
  nodeId : String
  name : String
deriving DecidableEq, Repr

/-- Relationship kind labelling an edge.  Modelled from the spec: the
`trustify_entity::relationship::Relationship` enum is not part of the
available source; the spec names depends-on, describes, generated-from as
example kinds, plus further variants. -/
inductive Relationship where
  | dependsOn
  | describes
  | generatedFrom
  | containedBy
  | variantOf
deriving DecidableEq, Repr

/-- Graph node variant type (`model::graph::Node`).  Modelled from the spec:
`Package{ sbom_id, node_id, name, version, purl: set, cpe: set }`,
`External{ sbom_id, node_id, external_document_reference, external_node_id }`,
plus other document-structural variants carrying only the base fields. -/
inductive GNode where
  | package (base : BaseNode) (version : String) (purl : List String) (cpe : List String)
  | external (base : BaseNode) (externalDocumentReference : String) (externalNodeId : String)
  | other (base : BaseNode)
deriving DecidableEq, Repr

/-- The base attributes of a node (every variant carries them). -/
def GNode.base : GNode → BaseNode
  | .package b _ _ _ => b
  | .external b _ _ => b
  | .other b => b

def GNode.sbomId (n : GNode) : String := n.base.sbomId

def GNode.nodeId (n : GNode) : String := n.base.nodeId

def GNode.name (n : GNode) : String := n.base.name

/-- `true` exactly on the `Package` variant. -/
def GNode.isPackage : GNode → Bool
  | .package _ _ _ _ => true
  | _ => false

/-- The purl set of a node (`[]` for non-package variants). -/
def GNode.purls : GNode → List String
  | .package _ _ p _ => p
  | _ => []

/-- The cpe set of a node (`[]` for non-package variants). -/
def GNode.cpes : GNode → List String
  | .package _ _ _ c => c
  | _ => []

/-- A directed multigraph over nodes and relationship-labelled edges for one
SBOM, as an index arena (petgraph `Graph<graph::Node, Relationship>`): nodes
are stored in a list and edges reference stable integer indices.
Spec: "implement as an arena of nodes (stable integer indices) plus an
adjacency structure keyed by those indices". -/
structure PackageGraph where
  nodes : List GNode
  edges : List (Nat × Relationship × Nat)
deriving DecidableEq, Repr

/-- `Graph::node_weight`: the node stored at an index, if the index is in
bounds. -/
def PackageGraph.nodeWeight (g : PackageGraph) (i : Nat) : Option GNode :=
  g.nodes.get? i

/-- Successor indices of `u` (targets of outgoing edges), the edge relation
used by the depth-first traversal of the cycle guard. -/
def PackageGraph.succs (g : PackageGraph) (u : Nat) : List Nat :=
  g.edges.filterMap (fun e => if e.1 = u then some e.2.2 else none)

/-- There is a directed edge from `u` to `v` (with some relationship label). -/
def PackageGraph.hasEdge (g : PackageGraph) (u v : Nat) : Prop :=
  ∃ r, (u, r, v) ∈ g.edges

/-- `pathList g a l` holds when the edges `a → l₀ → l₁ → …` all exist: the
list `a :: l` is a directed walk in `g`. -/
def pathList (g : PackageGraph) : Nat → List Nat → Prop
  | _, [] => True
  | a, b :: l => g.hasEdge a b ∧ pathList g b l

/-- The graph contains a directed cycle: a nonempty walk from some node back
to itself (a self-loop is the one-edge case). -/
def HasCycle (g : PackageGraph) : Prop :=
  ∃ a l, pathList g a (l ++ [a])

/-- Well-formedness of the index arena: every edge endpoint is a valid node
index.  petgraph graphs satisfy this by construction (edges can only be
added between existing node indices). -/
def Wf (g : PackageGraph) : Prop :=
  ∀ e ∈ g.edges, e.1 < g.nodes.length ∧ e.2.2 < g.nodes.length

instance (g : PackageGraph) : Decidable (Wf g) := by
  unfold Wf; infer_instance

/-! The cycle guard's depth-first search

Embedding of petgraph's `depth_first_search` as used by `acyclic`
(`mod.rs:461-478`): a three-colour DFS over all node identifiers that
short-circuits on the first back edge (an edge to a discovered but not yet
finished node).  The state tracks the grey stack (discovered, unfinished,
in discovery order) and the black list (finished, in finish order); white
nodes are the rest.  Recursion is fuelled; `n + 1` fuel is shown to be
sufficient for well-formed graphs. -/

/-- DFS state: `gray` = discovered but unfinished (the DFS stack, in
discovery order), `black` = finished (in finish order). -/
structure St where
  gray : List Nat
  black : List Nat
deriving DecidableEq, Repr

/-- DFS outcome: completed state, first back edge found (source, target), or
fuel exhaustion (shown unreachable for well-formed graphs). -/
inductive Res where
  | ok (st : St)
  | cycle (s t : Nat)
  | fuelOut
deriving DecidableEq, Repr

/-- Process the successor list of the grey node `u` with a given
continuation for visiting white nodes: a white successor is visited (tree
edge), a grey successor is a back edge (short-circuit), a black successor
is skipped (cross/forward edge). -/
def goList (g : PackageGraph) (u : Nat) (visitf : Nat → St → Res) :
    List Nat → St → Res
  | [], st => .ok st
  | v :: vs, st =>
    if v ∈ st.gray ∨ v ∈ st.black then
      if v ∈ st.black then goList g u visitf vs st else .cycle u v
    else
      match visitf v st with
      | .ok st2 => goList g u visitf vs st2
      | r => r

/-- Visit a white node `u`: mark it grey, process its successors, then mark
it black (petgraph `dfs_visitor`).  Structural recursion on the fuel. -/
def visit (g : PackageGraph) : Nat → Nat → St → Res
  | 0 => fun _ _ => .fuelOut
  | f + 1 => fun u st =>
    match goList g u (visit g f) (g.succs u) ⟨st.gray ++ [u], st.black⟩ with
    | .ok st2 => .ok ⟨st.gray, st2.black ++ [u]⟩
    | r => r

/-- The successor loop at fuel `f`: `goList` with `visit g f` as the
continuation for white nodes. -/
def visitList (g : PackageGraph) (f u : Nat) (l : List Nat) (st : St) : Res :=
  goList g u (visit g f) l st

/-- The outer loop of `depth_first_search` over all node identifiers
(`g.node_identifiers()`): every still-undiscovered node starts a new DFS
tree, so disconnected components are covered. -/
def runAll (g : PackageGraph) (l : List Nat) (st : St) : Res :=
  match l with
  | [] => .ok st
  | v :: vs =>
    if v ∈ st.gray ∨ v ∈ st.black then runAll g vs st
    else
      match visit g (g.nodes.length + 1) v st with
      | .ok st2 => runAll g vs st2
      | r => r

/-- The whole `depth_first_search(g, g.node_identifiers(), …)` call of
`acyclic`, short-circuiting on the first `DfsEvent::BackEdge`. -/
def dfsRun (g : PackageGraph) : Res :=
  runAll g (List.range g.nodes.length) ⟨[], []⟩

/-- `acyclic` (`mod.rs:461-478`): returns `true` iff the depth-first search
finds no back edge.  The `id` argument is only used for the warning log on
detection. -/
def acyclic (id : String) (g : PackageGraph) : Bool :=
  match dfsRun g with
  | .ok _ => true
  | _ => false

/-! Correctness of the cycle guard -/

/-- Structural invariant of the DFS state: grey and black nodes are
pairwise distinct and are valid node indices. -/
def Inv (g : PackageGraph) (st : St) : Prop :=
  (st.gray ++ st.black).Nodup
    ∧ (∀ x ∈ st.gray, x < g.nodes.length)
    ∧ (∀ x ∈ st.black, x < g.nodes.length)

/-- Finish-order invariant: every successor of a finished node is finished
earlier.  The black list in finish order is a reverse topological order of
the finished portion of the graph. -/
def BOrd (g : PackageGraph) (st : St) : Prop :=
  ∀ a ∈ st.black, ∀ b, g.hasEdge a b →
    b ∈ st.black ∧ st.black.indexOf b < st.black.indexOf a

/-- Grey-stack invariant for soundness: every grey node has a walk to the
node currently being visited. -/
def GInv (g : PackageGraph) (st : St) (u : Nat) : Prop :=
  ∀ v ∈ st.gray, v = u ∨ ∃ l, pathList g v (l ++ [u])

/-! Query matcher (`AnalysisService::filter`, `mod.rs:407-457`) -/

/-- A value in the query-evaluation field context.  Modelled from the spec:
`trustify_common::db::query::Value` is an external collaborator; the fields
placed in the context are strings (`Value::String`) or string sets
(`Value::from(&package.purl)` / `Value::from(&package.cpe)`). -/
inductive Value where
  | str (s : String)
  | strs (l : List String)
deriving DecidableEq, Repr

/-- A parsed generic filter expression.  Modelled from the spec: the
expression language (parsing, operators) is an external collaborator; the
core's contract is only the field-context construction and the
`apply(context) -> bool` call, so the expression is abstract here, carrying
exactly its `apply` function. -/
structure Expr where
  apply : List (String × Value) → Bool

/-- An exact component reference.  Modelled from the spec: the
`ComponentReference` enum lives in the (absent) `query` module; the spec
gives the four variants `Id`, `Name`, `Purl`, `Cpe`. -/
inductive ComponentReference where
  | id (s : String)
  | name (s : String)
  | purl (s : String)
  | cpe (s : String)

/-- A graph query: a component reference or a generic filter expression.
Modelled from the spec: the `GraphQuery` enum lives in the (absent) `query`
module. -/
inductive GraphQuery where
  | component (r : ComponentReference)
  | query (e : Expr)

/-- The field context built for one node in `filter` (`mod.rs:427-456`):
base fields `sbom_id`, `node_id`, `name` always; package nodes additionally
`version`, `purl`, `cpe`; external nodes additionally
`external_document_reference`, `external_node_id`; other variants nothing
more. -/
def queryContext (n : GNode) : List (String × Value) :=
  [("sbom_id", Value.str n.sbomId),
   ("node_id", Value.str n.nodeId),
   ("name", Value.str n.name)] ++
  (match n with
   | .package _ version purl cpe =>
     [("version", Value.str version),
      ("purl", Value.strs purl),
      ("cpe", Value.strs cpe)]
   | .external _ edr eni =>
     [("external_document_reference", Value.str edr),
      ("external_node_id", Value.str eni)]
   | .other _ => [])

/-- `AnalysisService::filter` (`mod.rs:407-457`): does the node at index `i`
match the query? -/
def filterMatch (g : PackageGraph) (q : GraphQuery) (i : Nat) : Bool :=
  match q with
  | .component (.id componentId) =>
    (g.nodeWeight i).elim false (fun node => node.nodeId == componentId)
  | .component (.name componentName) =>
    (g.nodeWeight i).elim false (fun node => node.name == componentName)
  | .component (.purl purl) =>
    (g.nodeWeight i).elim false (fun node =>
      match node with
      | .package _ _ purls _ => purls.contains purl
      | _ => false)
  | .component (.cpe cpe) =>
    (g.nodeWeight i).elim false (fun node =>
      match node with
      | .package _ _ _ cpes => cpes.contains cpe
      | _ => false)
  | .query e =>
    (g.nodeWeight i).elim false (fun node => e.apply (queryContext node))

/-! External resolver (`resolve_external_sbom`, `mod.rs:66-187`)

The resolver issues seven distinct SeaORM queries (each `find … filter …
one(connection)`), every one returning `Result<Option<Row>, DbErr>`.  The
connection is embedded as a record of these seven query functions, each
returning `Except Unit (Option Row)`; a table-backed instantiation
(`Db.conn`) implements each query as "first matching row" over in-memory
tables, mirroring the SeaORM filters. -/

/-- `sbom_external_node::ExternalType` (SPDX / CycloneDX /
RedHatProductComponent).  Modelled from the spec: the entity crate is not
part of the available source; the three variants are the three dispatch
arms of `resolve_external_sbom`. -/
inductive ExternalType where
  | spdx
  | cycloneDx
  | redHatProductComponent
deriving DecidableEq, Repr

/-- `sbom_external_node::DiscriminatorType`.  Modelled from the spec: the
entity crate is not part of the available source; only `Sha256` is accepted
by the SPDX arm (`mod.rs:94-99`), every other variant falls into the `_ =>
return None` arm, so further hash kinds stand in for "any other
discriminator type". -/
inductive DiscriminatorType where
  | sha256
  | sha384
  | sha512
deriving DecidableEq, Repr

/-- A `sbom_external_node` row (the columns read by the resolver). -/
structure ExternalNodeRow where
  nodeId : String
  externalType : ExternalType
  externalDocRef : String
  externalNodeRef : String
  discriminatorType : Option DiscriminatorType
  discriminatorValue : Option String
deriving DecidableEq, Repr

/-- An `sbom` row joined with its `source_document` row: `sbomId` and
`documentId` from `sbom`, `sourceSha256` the checksum of the joined source
document (none when the SBOM has no source document, in which case the
inner join in the SPDX arm excludes it). -/
structure SbomRow where
  sbomId : String
  documentId : String
  sourceSha256 : Option String
deriving DecidableEq, Repr

/-- A `sbom_node_checksum` row (the columns read by the resolver). -/
structure ChecksumRow where
  sbomId : String
  nodeId : String
  value : String
deriving DecidableEq, Repr

/-- A `sbom_package` row (the columns read by the resolver). -/
structure PackageRow where
  sbomId : String
  nodeId : String
  version : String
deriving DecidableEq, Repr

/-- `ResolvedSbom` (`mod.rs:58-64`): the SBOM the node was found in and the
node's id. -/
structure ResolvedSbom where
  sbomId : String
  nodeId : String
deriving DecidableEq, Repr

/-- The connection, seen through the seven queries `resolve_external_sbom`
issues.  Each field is one `find…filter…one(connection)` call; `Except.error`
is a `DbErr` (query/transport failure). -/
structure Conn where
  /-- `sbom_external_node::Entity::find().filter(NodeId.eq(node_id)).one` -/
  findExternalNode : String → Except Unit (Option ExternalNodeRow)
  /-- `sbom::Entity::find().join(SourceDocument).filter(source_document::Sha256.eq(v)).one` -/
  findSbomBySha256 : String → Except Unit (Option SbomRow)
  /-- `sbom::Entity::find().filter(sbom::DocumentId.eq(doc_id)).one` -/
  findSbomByDocId : String → Except Unit (Option SbomRow)
  /-- `sbom_node_checksum::Entity::find().filter(NodeId.eq(ref)).one` -/
  findChecksumByNodeId : String → Except Unit (Option ChecksumRow)
  /-- `sbom_node_checksum::Entity::find().filter(SbomId.ne(sid)).filter(Value.eq(v)).one` -/
  findChecksumByValueExcl : String → String → Except Unit (Option ChecksumRow)
  /-- `sbom_package::Entity::find().filter(NodeId.eq(ref)).one` -/
  findPackageByNodeId : String → Except Unit (Option PackageRow)
  /-- `sbom_package::Entity::find().filter(SbomId.ne(sid)).filter(Version.eq(v)).one` -/
  findPackageByVersionExcl : String → String → Except Unit (Option PackageRow)

/-- `resolve_external_sbom` (`mod.rs:66-187`).  Every `match … { Ok(Some(e))
=> …, _ => return None }` of the source — which maps both `Ok(None)` and
`Err(_)` to `None` — is mirrored by a match whose catch-all yields `none`;
the `?` early returns on the `Option` fields are explicit matches. -/
def resolveExternalSbom (conn : Conn) (nodeId : String) : Option ResolvedSbom :=
  match conn.findExternalNode nodeId with
  | .ok (some sbomExternalNode) =>
    match sbomExternalNode.externalType with
    | .spdx =>
      match sbomExternalNode.discriminatorValue with
      | none => none
      | some discriminatorValue =>
        if discriminatorValue = "" then none
        else
          match sbomExternalNode.discriminatorType with
          | some .sha256 =>
            match conn.findSbomBySha256 discriminatorValue with
            | .ok (some entity) =>
              some ⟨entity.sbomId, sbomExternalNode.externalNodeRef⟩
            | _ => none
          | some _ => none
          | none => none
    | .cycloneDx =>
      match sbomExternalNode.discriminatorValue with
      | none => none
      | some discriminatorValue =>
        if discriminatorValue = "" then none
        else
          match conn.findSbomByDocId
              ("urn:cdx:" ++ sbomExternalNode.externalDocRef ++ "/" ++ discriminatorValue) with
          | .ok (some entity) =>
            some ⟨entity.sbomId, sbomExternalNode.externalNodeRef⟩
          | _ => none
    | .redHatProductComponent =>
      match conn.findChecksumByNodeId sbomExternalNode.externalNodeRef with
      | .ok (some entity) =>
        match conn.findChecksumByValueExcl entity.sbomId entity.value with
        | .ok (some matched) => some ⟨matched.sbomId, matched.nodeId⟩
        | _ => none
      | _ =>
        match conn.findPackageByNodeId sbomExternalNode.externalNodeRef with
        | .ok (some imagevariant) =>
          match conn.findPackageByVersionExcl imagevariant.sbomId imagevariant.version with
          | .ok (some matchedImagevariant) =>
            some ⟨matchedImagevariant.sbomId, matchedImagevariant.nodeId⟩
          | _ => none
        | _ => none
  | _ => none

/-- In-memory database tables backing the seven queries. -/
structure Db where
  externalNodes : List ExternalNodeRow
  sboms : List SbomRow
  checksums : List ChecksumRow
  packages : List PackageRow

/-- The table-backed connection: each query returns the first matching row
(SeaORM `.one()`), with the source's column filters as row predicates. -/
def Db.conn (db : Db) : Conn where
  findExternalNode nid := .ok (db.externalNodes.find? (fun r => r.nodeId == nid))
  findSbomBySha256 v := .ok (db.sboms.find? (fun r => r.sourceSha256 == some v))
  findSbomByDocId d := .ok (db.sboms.find? (fun r => r.documentId == d))
  findChecksumByNodeId nid := .ok (db.checksums.find? (fun r => r.nodeId == nid))
  findChecksumByValueExcl sid v :=
    .ok (db.checksums.find? (fun r => r.sbomId != sid && r.value == v))
  findPackageByNodeId nid := .ok (db.packages.find? (fun r => r.nodeId == nid))
  findPackageByVersionExcl sid v :=
    .ok (db.packages.find? (fun r => r.sbomId != sid && r.version == v))

/-- Masking a connection's failures: every `DbErr` becomes "no row". -/
def maskConn (c : Conn) : Conn where
  findExternalNode nid :=
    match c.findExternalNode nid with
    | .error _ => .ok none
    | r => r
  findSbomBySha256 v :=
    match c.findSbomBySha256 v with
    | .error _ => .ok none
    | r => r
  findSbomByDocId d :=
    match c.findSbomByDocId d with
    | .error _ => .ok none
    | r => r
  findChecksumByNodeId nid :=
    match c.findChecksumByNodeId nid with
    | .error _ => .ok none
    | r => r
  findChecksumByValueExcl sid v :=
    match c.findChecksumByValueExcl sid v with
    | .error _ => .ok none
    | r => r
  findPackageByNodeId nid :=
    match c.findPackageByNodeId nid with
    | .error _ => .ok none
    | r => r
  findPackageByVersionExcl sid v :=
    match c.findPackageByVersionExcl sid v with
    | .error _ => .ok none
    | r => r

/-- The vendor-variant resolution as the specification states it, for
comparison with the source: "first match by content checksum (look up the
checksum row for the reference's node, then find a node of another SBOM
sharing that checksum value); whenever the checksum step produces no
match, it falls back to matching by package version".  Here the fallback
fires whenever the whole checksum step yields nothing — including when a
checksum row for the reference exists but no other SBOM shares its value. -/
def resolveExternalSbomSpecRH (db : Db) (nodeId : String) : Option ResolvedSbom :=
  match db.externalNodes.find? (fun r => r.nodeId == nodeId) with
  | some e =>
    match e.externalType with
    | .redHatProductComponent =>
      let checksumStep : Option ResolvedSbom :=
        match db.checksums.find? (fun c => c.nodeId == e.externalNodeRef) with
        | some ent =>
          (db.checksums.find?
            (fun m => m.sbomId != ent.sbomId && m.value == ent.value)).map
            (fun m => ⟨m.sbomId, m.nodeId⟩)
        | none => none
      match checksumStep with
      | some r => some r
      | none =>
        match db.packages.find? (fun p => p.nodeId == e.externalNodeRef) with
        | some iv =>
          (db.packages.find?
            (fun m => m.sbomId != iv.sbomId && m.version == iv.version)).map
            (fun m => ⟨m.sbomId, m.nodeId⟩)
        | none => none
    | _ => none
  | none => none

/-- Tables refuting C3 as stated: the reference's node `x` has a checksum
row (sbom `A`, value `v`) but no other SBOM shares value `v`, while the
version fallback would succeed (package `x` in sbom `A` has version `1`,
and sbom `B` has a package `y` with version `1`). -/
def rhFallbackDb : Db :=
  { externalNodes := [⟨"e3", .redHatProductComponent, "", "x", none, none⟩]
    sboms := []
    checksums := [⟨"A", "x", "v"⟩]
    packages := [⟨"A", "x", "1"⟩, ⟨"B", "y", "1"⟩] }

/-- Tables for the C4 witness: one SPDX reference with a `Sha256`
discriminator and one SBOM whose source document has that checksum. -/
def spdxDb : Db :=
  { externalNodes := [⟨"ext1", .spdx, "docA", "nodeRef1", some .sha256, some "abc"⟩]
    sboms := [⟨"S2", "docid2", some "abc"⟩]
    checksums := []
    packages := [] }

/-- Tables for the C5 witness: one CycloneDX reference and one SBOM whose
document id is the synthetic `urn:cdx:` identifier. -/
def cdxDb : Db :=
  { externalNodes := [⟨"ext2", .cycloneDx, "docB", "nodeRef2", none, some "1"⟩]
    sboms := [⟨"S3", "urn:cdx:docB/1", none⟩]
    checksums := []
    packages := [] }

/-- Tables for the C9 witness: the reference's checksum row is in sbom `A`
and another SBOM `B` shares the checksum value. -/
def rhCrossDb : Db :=
  { externalNodes := [⟨"eRH", .redHatProductComponent, "", "x", none, none⟩]
    sboms := []
    checksums := [⟨"A", "x", "v"⟩, ⟨"B", "y", "v"⟩]
    packages := [] }

/-! Orchestrator: collection, expansion, pagination
(`collect_graph` `mod.rs:268-295`, `run_graph_query` `mod.rs:297-348`,
`retrieve_single` `mod.rs:350-377`, `retrieve` `mod.rs:379-404`) -/

/-- Traversal direction (petgraph `Direction`): `incoming` edges lead to
ancestors, `outgoing` edges to descendants. -/
inductive Direction where
  | incoming
  | outgoing
deriving DecidableEq, Repr

/-- `QueryOptions`: ancestor/descendant depth limits and the
relationship-kind filter.  Modelled from the spec: the `query` module is
not part of the available source. -/
structure QueryOptions where
  ancestors : Nat
  descendants : Nat
  relationships : List Relationship
deriving DecidableEq, Repr

/-- The neighbours of node `i` in the given direction, with the edge's
relationship label. -/
def PackageGraph.neighbors (g : PackageGraph) (i : Nat) (dir : Direction) :
    List (Relationship × Nat) :=
  match dir with
  | .outgoing => g.edges.filterMap (fun e => if e.1 = i then some (e.2.1, e.2.2) else none)
  | .incoming => g.edges.filterMap (fun e => if e.2.2 = i then some (e.2.1, e.1) else none)

/-- A result record (`model::Node`): the projected node, the originating
relationship label, and nested ancestor/descendant sub-results.  Modelled
from the spec: the `model` module is not part of the available source. -/
inductive Node where
  | mk (base : GNode) (relationship : Option Relationship)
      (ancestors : List Node) (descendants : List Node)
deriving Repr

/-- Modelled from the spec: one step of the Collector over the remaining
neighbour list (relationship filter, visited-set dedup, external-reference
crossing, projection into a `Node` record), with a continuation `next` for
the strictly deeper expansions. -/
def collectStep (db : Db) (cache : List (String × PackageGraph)) (dir : Direction)
    (rels : List Relationship)
    (next : PackageGraph → Nat → List (String × String) →
      List Node × List (String × String))
    (g : PackageGraph) :
    List (Relationship × Nat) → List (String × String) →
      List Node × List (String × String)
  | [], visited => ([], visited)
  | (rel, j) :: rest, visited =>
    if rels ≠ [] ∧ rel ∉ rels then
      collectStep db cache dir rels next g rest visited
    else
      match g.nodeWeight j with
      | none => collectStep db cache dir rels next g rest visited
      | some w =>
        if (w.sbomId, w.nodeId) ∈ visited then
          collectStep db cache dir rels next g rest visited
        else
          let nested : List Node × List (String × String) :=
            match w with
            | .external _ _ _ =>
              match resolveExternalSbom db.conn w.nodeId with
              | some res =>
                match cache.find? (fun p => p.1 == res.sbomId) with
                | some p =>
                  match (List.range p.2.nodes.length).find? (fun j2 =>
                      (p.2.nodeWeight j2).any (fun w2 => w2.nodeId == res.nodeId)) with
                  | some j2 => next p.2 j2 ((w.sbomId, w.nodeId) :: visited)
                  | none => ([], (w.sbomId, w.nodeId) :: visited)
                | none => ([], (w.sbomId, w.nodeId) :: visited)
              | none => ([], (w.sbomId, w.nodeId) :: visited)
            | _ => next g j ((w.sbomId, w.nodeId) :: visited)
          let node : Node :=
            match dir with
            | .incoming => .mk w (some rel) nested.1 []
            | .outgoing => .mk w (some rel) [] nested.1
          let rest2 := collectStep db cache dir rels next g rest nested.2
          (node :: rest2.1, rest2.2)

/-- Modelled from the spec: the `Collector`'s bounded-depth expansion
(`collector` module, not part of the available source), by structural
recursion on the depth limit. -/
def collectAux (db : Db) (cache : List (String × PackageGraph)) (dir : Direction)
    (rels : List Relationship) :
    Nat → PackageGraph → Nat → List (String × String) →
      List Node × List (String × String)
  | 0 => fun _ _ visited => ([], visited)
  | d + 1 => fun g i visited =>
    collectStep db cache dir rels (collectAux db cache dir rels d) g
      (g.neighbors i dir) visited

/-- Modelled from the spec: the `Collector` (`collector` module, not part
of the available source).  "Given a starting node, a direction, a depth
limit, and a relationship-kind filter, produce the set of reachable nodes
within that depth, following only edges whose relationship kind is in the
filter set (empty filter = all kinds allowed), skipping already-visited
`(sbom_id, node_id)` pairs.  When traversal reaches an external-reference
node, consult the External Resolver; on success switch context to the
resolved SBOM's cached graph and continue expansion there; on resolution
failure the branch terminates and the external node is a leaf."  Returns
the sub-results together with the updated visited set. -/
def collect (db : Db) (cache : List (String × PackageGraph)) (g : PackageGraph)
    (i : Nat) (dir : Direction) (depth : Nat) (rels : List Relationship)
    (visited : List (String × String)) :
    List Node × List (String × String) :=
  collectAux db cache dir rels depth g i visited

/-- `AnalysisService::collect_graph` (`mod.rs:268-295`): over the graphs in
scope, keep only those passing the cycle guard, select the node indices
matching the query, and map each matched node through `create`. -/
def collectGraph (q : GraphQuery) (graphs : List (String × PackageGraph))
    (create : PackageGraph → Nat → GNode → Node) : List Node :=
  (graphs.filter (fun p => acyclic p.1 p.2)).flatMap (fun p =>
    ((List.range p.2.nodes.length).filter (fun i => filterMatch p.2 q i)).filterMap
      (fun i => (p.2.nodeWeight i).map (fun w => create p.2 i w)))

/-- The `create` closure of `run_graph_query` (`mod.rs:308-346`): project
the matched node and attach its ancestor and descendant expansions. -/
def createNode (db : Db) (cache : List (String × PackageGraph))
    (options : QueryOptions) (g : PackageGraph) (i : Nat) (w : GNode) : Node :=
  .mk w none
    (collect db cache g i .incoming options.ancestors options.relationships
      [(w.sbomId, w.nodeId)]).1
    (collect db cache g i .outgoing options.descendants options.relationships
      [(w.sbomId, w.nodeId)]).1

/-- `AnalysisService::run_graph_query` (`mod.rs:297-348`). -/
def runGraphQuery (q : GraphQuery) (options : QueryOptions)
    (graphs : List (String × PackageGraph)) (db : Db)
    (cache : List (String × PackageGraph)) : List Node :=
  collectGraph q graphs (createNode db cache options)

/-- `Paginated { offset, limit }`.  Modelled from the spec:
`trustify_common::model::Paginated` is an external collaborator. -/
structure Paginated where
  offset : Nat
  limit : Nat
deriving DecidableEq, Repr

/-- `PaginatedResults { items, total }`.  Modelled from the spec. -/
structure PaginatedResults where
  items : List Node
  total : Nat
deriving Repr

/-- `Paginated::paginate_array`.  Modelled from the spec: "Paginate (apply
offset/limit to the assembled node list)". -/
def paginateArray (p : Paginated) (xs : List Node) : PaginatedResults :=
  { items := (xs.drop p.offset).take p.limit, total := xs.length }

/-- `AnalysisService::retrieve` (`mod.rs:379-404`): load the graphs in
scope (`load_graphs_query`, a data-access call whose outcome is the
`loadResult` argument; `?` propagates its error), run the graph query
(which cannot fail), and paginate. -/
def retrieve (loadResult : Except Unit (List (String × PackageGraph)))
    (q : GraphQuery) (options : QueryOptions) (paginated : Paginated)
    (db : Db) (cache : List (String × PackageGraph)) :
    Except Unit PaginatedResults :=
  match loadResult with
  | .error e => .error e
  | .ok graphs => .ok (paginateArray paginated (runGraphQuery q options graphs db cache))

/-- `AnalysisService::retrieve_single` (`mod.rs:350-377`): identical to
`retrieve` except the scope is the single given SBOM id (the `loadResult`
argument is the outcome of `load_graphs` on `[sbom_id]`). -/
def retrieveSingle (sbomId : String)
    (loadResult : Except Unit (List (String × PackageGraph)))
    (q : GraphQuery) (options : QueryOptions) (paginated : Paginated)
    (db : Db) (cache : List (String × PackageGraph)) :
    Except Unit PaginatedResults :=
  match loadResult with
  | .error e => .error e
  | .ok graphs => .ok (paginateArray paginated (runGraphQuery q options graphs db cache))

mutual

/-- Does some node in this result tree carry the given `sbom_id`? -/
def nodeMentionsSbom (n : Node) (s : String) : Bool :=
  match n with
  | .mk b _ anc desc =>
    b.sbomId == s || nodesMentionSbom anc s || nodesMentionSbom desc s

/-- Does some node in one of these result trees carry the given
`sbom_id`? -/
def nodesMentionSbom (l : List Node) (s : String) : Bool :=
  match l with
  | [] => false
  | n :: rest => nodeMentionsSbom n s || nodesMentionSbom rest s

end

/-- Acyclic graph for sbom `A`: a package node `a1` depending on an
external-reference node `a2` that points into sbom `B`. -/
def gA : PackageGraph :=
  { nodes := [.package ⟨"A", "a1", "pkgA1"⟩ "1" [] [],
              .external ⟨"A", "a2", "extA2"⟩ "docB" "b1"]
    edges := [(0, .dependsOn, 1)] }

/-- Cyclic graph for sbom `B`: packages `b1` and `b2` depending on each
other (a back edge). -/
def gB : PackageGraph :=
  { nodes := [.package ⟨"B", "b1", "pkgB1"⟩ "1" [] [],
              .package ⟨"B", "b2", "pkgB2"⟩ "1" [] []]
    edges := [(0, .dependsOn, 1), (1, .dependsOn, 0)] }

/-- Tables letting `a2` resolve (CycloneDX, `urn:cdx:docB/1`) to node `b1`
of sbom `B`. -/
def cycleDb : Db :=
  { externalNodes := [⟨"a2", .cycloneDx, "docB", "b1", none, some "1"⟩]
    sboms := [⟨"B", "urn:cdx:docB/1", none⟩]
    checksums := []
    packages := [] }

/-- The graphs in scope for the C2 counterexample request. -/
def cycleScope : List (String × PackageGraph) := [("A", gA), ("B", gB)]

theorem hasEdge_iff_mem_succs (g : PackageGraph) (u v : Nat) :
    g.hasEdge u v ↔ v ∈ g.succs u := by
  constructor
  · rintro ⟨r, hr⟩
    refine List.mem_filterMap.2 ⟨(u, r, v), hr, ?_⟩
    simp
  · intro h
    obtain ⟨⟨a, r, b⟩, hmem, hab⟩ := List.mem_filterMap.1 h
    by_cases hau : a = u
    · subst hau
      simp at hab
      exact ⟨r, hab ▸ hmem⟩
    · simp [hau] at hab

theorem visit_zero (g : PackageGraph) (u : Nat) (st : St) :
    visit g 0 u st = .fuelOut := rfl

theorem visit_succ (g : PackageGraph) (f u : Nat) (st : St) :
    visit g (f + 1) u st =
      match visitList g f u (g.succs u) ⟨st.gray ++ [u], st.black⟩ with
      | .ok st2 => .ok ⟨st.gray, st2.black ++ [u]⟩
      | r => r := rfl

theorem visitList_nil (g : PackageGraph) (f u : Nat) (st : St) :
    visitList g f u [] st = .ok st := rfl

theorem visitList_cons (g : PackageGraph) (f u v : Nat) (vs : List Nat) (st : St) :
    visitList g f u (v :: vs) st =
      if v ∈ st.gray ∨ v ∈ st.black then
        if v ∈ st.black then visitList g f u vs st else .cycle u v
      else
        match visit g f v st with
        | .ok st2 => visitList g f u vs st2
        | r => r := rfl

/-- Shape of a completed call: the grey stack is restored and the black list
only grows (by appending). -/
theorem dfs_shape (g : PackageGraph) : ∀ f : Nat,
    (∀ u st st2, visit g f u st = .ok st2 →
      st2.gray = st.gray ∧ ∃ d, st2.black = st.black ++ d) ∧
    (∀ u l st st2, visitList g f u l st = .ok st2 →
      st2.gray = st.gray ∧ ∃ d, st2.black = st.black ++ d) := by
  intro f
  induction f with
  | zero =>
    constructor
    · intro u st st2 h
      rw [visit_zero] at h
      exact absurd h (by simp)
    · intro u l
      induction l with
      | nil =>
        intro st st2 h
        rw [visitList_nil] at h
        cases h
        exact ⟨rfl, [], by simp⟩
      | cons v vs ih =>
        intro st st2 h
        rw [visitList_cons] at h
        split at h
        · split at h
          · exact ih st st2 h
          · exact absurd h (by simp)
        · rw [visit_zero] at h
          exact absurd h (by simp)
  | succ f ihf =>
    have hvisit : ∀ u st st2, visit g (f + 1) u st = .ok st2 →
        st2.gray = st.gray ∧ ∃ d, st2.black = st.black ++ d := by
      intro u st st2 h
      rw [visit_succ] at h
      cases heq : visitList g f u (g.succs u) ⟨st.gray ++ [u], st.black⟩ with
      | ok st3 =>
        rw [heq] at h
        cases h
        obtain ⟨-, d, hd⟩ := ihf.2 u (g.succs u) ⟨st.gray ++ [u], st.black⟩ st3 heq
        exact ⟨rfl, d ++ [u], by simp [hd]⟩
      | cycle s t =>
        rw [heq] at h
        exact absurd h (by simp)
      | fuelOut =>
        rw [heq] at h
        exact absurd h (by simp)
    refine ⟨hvisit, ?_⟩
    intro u l
    induction l with
    | nil =>
      intro st st2 h
      rw [visitList_nil] at h
      cases h
      exact ⟨rfl, [], by simp⟩
    | cons v vs ih =>
      intro st st2 h
      rw [visitList_cons] at h
      split at h
      · split at h
        · exact ih st st2 h
        · exact absurd h (by simp)
      · cases heq : visit g (f + 1) v st with
        | ok st3 =>
          rw [heq] at h
          obtain ⟨h1, d1, hd1⟩ := hvisit v st st3 heq
          obtain ⟨h2, d2, hd2⟩ := ih st3 st2 h
          exact ⟨h2.trans h1, d1 ++ d2, by simp [hd2, hd1]⟩
        | cycle s t =>
          rw [heq] at h
          exact absurd h (by simp)
        | fuelOut =>
          rw [heq] at h
          exact absurd h (by simp)

/-- Preservation of the structural and finish-order invariants by a
completed call, together with coverage: the visited node (resp. every
listed successor) ends up finished. -/
theorem dfs_ok (g : PackageGraph) (hwf : Wf g) : ∀ f : Nat,
    (∀ u st st2, Inv g st → BOrd g st → u < g.nodes.length →
      ¬(u ∈ st.gray ∨ u ∈ st.black) → visit g f u st = .ok st2 →
      Inv g st2 ∧ BOrd g st2 ∧ u ∈ st2.black) ∧
    (∀ u l st st2, Inv g st → BOrd g st → (∀ v ∈ l, v < g.nodes.length) →
      visitList g f u l st = .ok st2 →
      Inv g st2 ∧ BOrd g st2 ∧ (∀ v ∈ l, v ∈ st2.black)) := by
  intro f
  induction f with
  | zero =>
    constructor
    · intro u st st2 _ _ _ _ h
      rw [visit_zero] at h
      exact absurd h (by simp)
    · intro u l
      induction l with
      | nil =>
        intro st st2 hinv hbord _ h
        rw [visitList_nil] at h
        cases h
        exact ⟨hinv, hbord, by simp⟩
      | cons v vs ih =>
        intro st st2 hinv hbord hbounds h
        rw [visitList_cons] at h
        split at h
        · split at h
          · rename_i hdisc hblack
            obtain ⟨h1, h2, h3⟩ := ih st st2 hinv hbord (fun w hw => hbounds w (by simp [hw])) h
            refine ⟨h1, h2, ?_⟩
            intro w hw
            rcases List.mem_cons.1 hw with hwv | hwvs
            · obtain ⟨-, d, hd⟩ := (dfs_shape g 0).2 u vs st st2 h
              rw [hd, hwv]
              exact List.mem_append_left _ hblack
            · exact h3 w hwvs
          · exact absurd h (by simp)
        · rw [visit_zero] at h
          exact absurd h (by simp)
  | succ f ihf =>
    have hvisit : ∀ u st st2, Inv g st → BOrd g st → u < g.nodes.length →
        ¬(u ∈ st.gray ∨ u ∈ st.black) → visit g (f + 1) u st = .ok st2 →
        Inv g st2 ∧ BOrd g st2 ∧ u ∈ st2.black := by
      intro u st st2 hinv hbord hun hu h
      rw [visit_succ] at h
      cases heq : visitList g f u (g.succs u) ⟨st.gray ++ [u], st.black⟩ with
      | ok st3 =>
        rw [heq] at h
        cases h
        push_neg at hu
        have hinv1 : Inv g ⟨st.gray ++ [u], st.black⟩ := by
          obtain ⟨hnd, hgb, hbb⟩ := hinv
          refine ⟨?_, ?_, hbb⟩
          · have : st.gray ++ [u] ++ st.black = st.gray ++ u :: st.black := by simp
            rw [this, List.nodup_middle]
            exact List.nodup_cons.2 ⟨by simp [hu.1, hu.2], hnd⟩
          · intro x hx
            rcases List.mem_append.1 hx with hx | hx
            · exact hgb x hx
            · simp at hx
              exact hx ▸ hun
        have hbord1 : BOrd g ⟨st.gray ++ [u], st.black⟩ := hbord
        have hsb : ∀ v ∈ g.succs u, v < g.nodes.length := by
          intro v hv
          obtain ⟨r, hr⟩ := (hasEdge_iff_mem_succs g u v).2 hv
          exact (hwf _ hr).2
        obtain ⟨hinv3, hbord3, hcov3⟩ :=
          ihf.2 u (g.succs u) ⟨st.gray ++ [u], st.black⟩ st3 hinv1 hbord1 hsb heq
        obtain ⟨hg3, d, hd3⟩ := (dfs_shape g f).2 u (g.succs u) ⟨st.gray ++ [u], st.black⟩ st3 heq
        have hu3gray : u ∈ st3.gray := by
          rw [hg3]; simp
        have hu3black : u ∉ st3.black :=
          fun hc => (List.disjoint_of_nodup_append hinv3.1) hu3gray hc
        have hg3' : st3.gray = st.gray ++ [u] := hg3
        have hperm : List.Perm (st3.gray ++ st3.black) (st.gray ++ (st3.black ++ [u])) := by
          rw [hg3', List.append_assoc]
          exact List.Perm.append_left st.gray List.perm_append_comm
        refine ⟨⟨?_, ?_, ?_⟩, ?_, ?_⟩
        · exact hperm.nodup hinv3.1
        · exact hinv.2.1
        · intro x hx
          rcases List.mem_append.1 hx with hx | hx
          · exact hinv3.2.2 x hx
          · simp at hx
            exact hx ▸ hun
        · -- BOrd for the final state ⟨st.gray, st3.black ++ [u]⟩
          intro a ha b hab
          rcases List.mem_append.1 ha with ha3 | hau
          · obtain ⟨hb3, hlt⟩ := hbord3 a ha3 b hab
            refine ⟨List.mem_append_left _ hb3, ?_⟩
            rw [List.indexOf_append_of_mem hb3, List.indexOf_append_of_mem ha3]
            exact hlt
          · simp at hau
            subst hau
            have hb3 : b ∈ st3.black := hcov3 b ((hasEdge_iff_mem_succs g a b).1 hab)
            refine ⟨List.mem_append_left _ hb3, ?_⟩
            rw [List.indexOf_append_of_mem hb3, List.indexOf_append_of_not_mem hu3black]
            simp only [List.indexOf_cons_self, Nat.add_zero]
            exact List.indexOf_lt_length.2 hb3
        · simp
      | cycle s t =>
        rw [heq] at h
        exact absurd h (by simp)
      | fuelOut =>
        rw [heq] at h
        exact absurd h (by simp)
    refine ⟨hvisit, ?_⟩
    intro u l
    induction l with
    | nil =>
      intro st st2 hinv hbord _ h
      rw [visitList_nil] at h
      cases h
      exact ⟨hinv, hbord, by simp⟩
    | cons v vs ih =>
      intro st st2 hinv hbord hbounds h
      rw [visitList_cons] at h
      split at h
      · split at h
        · rename_i hdisc hblack
          obtain ⟨h1, h2, h3⟩ := ih st st2 hinv hbord (fun w hw => hbounds w (by simp [hw])) h
          refine ⟨h1, h2, ?_⟩
          intro w hw
          rcases List.mem_cons.1 hw with hwv | hwvs
          · obtain ⟨-, d, hd⟩ := (dfs_shape g (f + 1)).2 u vs st st2 h
            rw [hd, hwv]
            exact List.mem_append_left _ hblack
          · exact h3 w hwvs
        · exact absurd h (by simp)
      · rename_i hwhite
        cases heq : visit g (f + 1) v st with
        | ok st3 =>
          rw [heq] at h
          obtain ⟨hinv3, hbord3, hv3⟩ :=
            hvisit v st st3 hinv hbord (hbounds v (by simp)) hwhite heq
          obtain ⟨h1, h2, h3⟩ := ih st3 st2 hinv3 hbord3 (fun w hw => hbounds w (by simp [hw])) h
          refine ⟨h1, h2, ?_⟩
          intro w hw
          rcases List.mem_cons.1 hw with hwv | hwvs
          · obtain ⟨-, d, hd⟩ := (dfs_shape g (f + 1)).2 u vs st3 st2 h
            rw [hd, hwv]
            exact List.mem_append_left _ hv3
          · exact h3 w hwvs
        | cycle s t =>
          rw [heq] at h
          exact absurd h (by simp)
        | fuelOut =>
          rw [heq] at h
          exact absurd h (by simp)

theorem length_le_of_nodup_bounded {l : List Nat} {n : Nat}
    (hnd : l.Nodup) (hb : ∀ x ∈ l, x < n) : l.length ≤ n := by
  have h1 : l.toFinset ⊆ Finset.range n := by
    intro x hx
    simp only [List.mem_toFinset] at hx
    exact Finset.mem_range.2 (hb x hx)
  have h2 := Finset.card_le_card h1
  rw [Finset.card_range] at h2
  rwa [List.toFinset_card_of_nodup hnd] at h2

/-- Fuel sufficiency: with more fuel than the graph has undiscovered nodes
(measured through the grey stack), the DFS never runs out of fuel.  In
particular `n + 1` fuel always suffices from an empty stack. -/
theorem dfs_fuel (g : PackageGraph) (hwf : Wf g) : ∀ f : Nat,
    (∀ u st, Inv g st → BOrd g st → u < g.nodes.length →
      ¬(u ∈ st.gray ∨ u ∈ st.black) → g.nodes.length + 1 ≤ f + st.gray.length →
      visit g f u st ≠ .fuelOut) ∧
    (∀ u l st, Inv g st → BOrd g st → (∀ v ∈ l, v < g.nodes.length) →
      g.nodes.length + 1 ≤ f + st.gray.length →
      visitList g f u l st ≠ .fuelOut) := by
  intro f
  induction f with
  | zero =>
    have harith : ∀ st : St, Inv g st →
        ¬(g.nodes.length + 1 ≤ 0 + st.gray.length) := by
      intro st hinv hle
      have hnd : st.gray.Nodup := (List.nodup_append.1 hinv.1).1
      have := length_le_of_nodup_bounded hnd hinv.2.1
      omega
    constructor
    · intro u st hinv _ _ _ hle
      exact absurd hle (harith st hinv)
    · intro u l st hinv _ _ hle
      exact absurd hle (harith st hinv)
  | succ f ihf =>
    have hvisit : ∀ u st, Inv g st → BOrd g st → u < g.nodes.length →
        ¬(u ∈ st.gray ∨ u ∈ st.black) → g.nodes.length + 1 ≤ (f + 1) + st.gray.length →
        visit g (f + 1) u st ≠ .fuelOut := by
      intro u st hinv hbord hun hu hle
      rw [visit_succ]
      push_neg at hu
      have hinv1 : Inv g ⟨st.gray ++ [u], st.black⟩ := by
        obtain ⟨hnd, hgb, hbb⟩ := hinv
        refine ⟨?_, ?_, hbb⟩
        · have : st.gray ++ [u] ++ st.black = st.gray ++ u :: st.black := by simp
          rw [this, List.nodup_middle]
          exact List.nodup_cons.2 ⟨by simp [hu.1, hu.2], hnd⟩
        · intro x hx
          rcases List.mem_append.1 hx with hx | hx
          · exact hgb x hx
          · simp at hx
            exact hx ▸ hun
      have hbord1 : BOrd g ⟨st.gray ++ [u], st.black⟩ := hbord
      have hsb : ∀ v ∈ g.succs u, v < g.nodes.length := by
        intro v hv
        obtain ⟨r, hr⟩ := (hasEdge_iff_mem_succs g u v).2 hv
        exact (hwf _ hr).2
      have hle1 : g.nodes.length + 1 ≤ f + (st.gray ++ [u]).length := by
        simp only [List.length_append, List.length_cons, List.length_nil]
        omega
      have hnf := ihf.2 u (g.succs u) ⟨st.gray ++ [u], st.black⟩ hinv1 hbord1 hsb hle1
      cases heq : visitList g f u (g.succs u) ⟨st.gray ++ [u], st.black⟩ with
      | ok st3 => simp
      | cycle s t => simp
      | fuelOut => exact absurd heq hnf
    refine ⟨hvisit, ?_⟩
    intro u l
    induction l with
    | nil =>
      intro st _ _ _ _
      rw [visitList_nil]
      simp
    | cons v vs ih =>
      intro st hinv hbord hbounds hle
      rw [visitList_cons]
      split
      · split
        · exact ih st hinv hbord (fun w hw => hbounds w (by simp [hw])) hle
        · simp
      · rename_i hwhite
        cases heq : visit g (f + 1) v st with
        | ok st3 =>
          obtain ⟨hinv3, hbord3, -⟩ :=
            (dfs_ok g hwf (f + 1)).1 v st st3 hinv hbord (hbounds v (by simp)) hwhite heq
          obtain ⟨hg3, -⟩ := (dfs_shape g (f + 1)).1 v st st3 heq
          have hle3 : g.nodes.length + 1 ≤ (f + 1) + st3.gray.length := by
            rw [hg3]; exact hle
          exact ih st3 hinv3 hbord3 (fun w hw => hbounds w (by simp [hw])) hle3
        | cycle s t => simp
        | fuelOut =>
          exact absurd heq
            (hvisit v st hinv hbord (hbounds v (by simp)) hwhite hle)

/-- Extending a walk that ends in `b` by an edge `b → c`. -/
theorem pathList_snoc (g : PackageGraph) :
    ∀ (l : List Nat) (a b c : Nat), pathList g a (l ++ [b]) → g.hasEdge b c →
      pathList g a (l ++ [b] ++ [c]) := by
  intro l
  induction l with
  | nil =>
    intro a b c hp he
    exact ⟨hp.1, he, trivial⟩
  | cons x l ih =>
    intro a b c hp he
    obtain ⟨hax, hrest⟩ := hp
    exact ⟨hax, ih x b c hrest he⟩

/-- A back edge `u → v` with `v` grey closes a directed cycle. -/
theorem cycle_of_gray_hit (g : PackageGraph) {u v : Nat}
    (hGI : v = u ∨ ∃ l, pathList g v (l ++ [u])) (he : g.hasEdge u v) :
    HasCycle g := by
  rcases hGI with hvu | ⟨l, hp⟩
  · exact ⟨u, [], hvu ▸ he, trivial⟩
  · exact ⟨v, l ++ [u], pathList_snoc g l v u v hp he⟩

/-- Transporting the grey-stack invariant across a tree edge `u → v`. -/
theorem ginv_step (g : PackageGraph) {st : St} {u v : Nat}
    (hGI : GInv g st u) (he : g.hasEdge u v) : GInv g st v := by
  intro w hw
  rcases hGI w hw with hwu | ⟨l, hp⟩
  · right
    exact ⟨[], hwu ▸ ⟨he, trivial⟩⟩
  · right
    exact ⟨l ++ [u], pathList_snoc g l w u v hp he⟩

/-- Soundness of the back-edge signal: if the DFS reports a back edge, the
graph really contains a directed cycle. -/
theorem dfs_cycle (g : PackageGraph) : ∀ f : Nat,
    (∀ u st a b, GInv g st u → visit g f u st = .cycle a b → HasCycle g) ∧
    (∀ u l st a b, GInv g st u → (∀ v ∈ l, g.hasEdge u v) →
      visitList g f u l st = .cycle a b → HasCycle g) := by
  intro f
  induction f with
  | zero =>
    constructor
    · intro u st a b _ h
      rw [visit_zero] at h
      exact absurd h (by simp)
    · intro u l
      induction l with
      | nil =>
        intro st a b _ _ h
        rw [visitList_nil] at h
        exact absurd h (by simp)
      | cons v vs ih =>
        intro st a b hGI hedges h
        rw [visitList_cons] at h
        split at h
        · split at h
          · exact ih st a b hGI (fun w hw => hedges w (by simp [hw])) h
          · rename_i hdisc hblack
            have hvgray : v ∈ st.gray := by
              rcases hdisc with hg | hb
              · exact hg
              · exact absurd hb hblack
            exact cycle_of_gray_hit g (hGI v hvgray) (hedges v (by simp))
        · rw [visit_zero] at h
          exact absurd h (by simp)
  | succ f ihf =>
    have hvisit : ∀ u st a b, GInv g st u → visit g (f + 1) u st = .cycle a b →
        HasCycle g := by
      intro u st a b hGI h
      rw [visit_succ] at h
      cases heq : visitList g f u (g.succs u) ⟨st.gray ++ [u], st.black⟩ with
      | ok st3 =>
        rw [heq] at h
        exact absurd h (by simp)
      | cycle s t =>
        rw [heq] at h
        have hGI1 : GInv g ⟨st.gray ++ [u], st.black⟩ u := by
          intro w hw
          rcases List.mem_append.1 hw with hw | hw
          · exact hGI w hw
          · simp at hw
            exact Or.inl hw
        exact ihf.2 u (g.succs u) ⟨st.gray ++ [u], st.black⟩ s t hGI1
          (fun w hw => (hasEdge_iff_mem_succs g u w).2 hw) heq
      | fuelOut =>
        rw [heq] at h
        exact absurd h (by simp)
    refine ⟨hvisit, ?_⟩
    intro u l
    induction l with
    | nil =>
      intro st a b _ _ h
      rw [visitList_nil] at h
      exact absurd h (by simp)
    | cons v vs ih =>
      intro st a b hGI hedges h
      rw [visitList_cons] at h
      split at h
      · split at h
        · exact ih st a b hGI (fun w hw => hedges w (by simp [hw])) h
        · rename_i hdisc hblack
          have hvgray : v ∈ st.gray := by
            rcases hdisc with hg | hb
            · exact hg
            · exact absurd hb hblack
          exact cycle_of_gray_hit g (hGI v hvgray) (hedges v (by simp))
      · cases heq : visit g (f + 1) v st with
        | ok st3 =>
          rw [heq] at h
          obtain ⟨hg3, -⟩ := (dfs_shape g (f + 1)).1 v st st3 heq
          have hGI3 : GInv g st3 u := by
            intro w hw
            rw [hg3] at hw
            exact hGI w hw
          exact ih st3 a b hGI3 (fun w hw => hedges w (by simp [hw])) h
        | cycle s t =>
          rw [heq] at h
          exact hvisit v st s t (ginv_step g hGI (hedges v (by simp))) heq
        | fuelOut =>
          rw [heq] at h
          exact absurd h (by simp)

/-- Completed outer loop: invariants are preserved, the grey stack stays
empty, and every processed root ends up finished. -/
theorem runAll_ok (g : PackageGraph) (hwf : Wf g) :
    ∀ (l : List Nat) (st st2 : St), Inv g st → BOrd g st → st.gray = [] →
      (∀ v ∈ l, v < g.nodes.length) → runAll g l st = .ok st2 →
      Inv g st2 ∧ BOrd g st2 ∧ st2.gray = [] ∧ (∀ v ∈ l, v ∈ st2.black) ∧
        (∃ d, st2.black = st.black ++ d) := by
  intro l
  induction l with
  | nil =>
    intro st st2 hinv hbord hgray _ h
    rw [runAll] at h
    cases h
    exact ⟨hinv, hbord, hgray, by simp, [], by simp⟩
  | cons v vs ih =>
    intro st st2 hinv hbord hgray hbounds h
    rw [runAll] at h
    split at h
    · rename_i hdisc
      have hvblack : v ∈ st.black := by
        rcases hdisc with hg | hb
        · rw [hgray] at hg
          exact absurd hg (by simp)
        · exact hb
      obtain ⟨h1, h2, h3, h4, d, hd⟩ :=
        ih st st2 hinv hbord hgray (fun w hw => hbounds w (by simp [hw])) h
      refine ⟨h1, h2, h3, ?_, d, hd⟩
      intro w hw
      rcases List.mem_cons.1 hw with hwv | hwvs
      · rw [hd, hwv]
        exact List.mem_append_left _ hvblack
      · exact h4 w hwvs
    · rename_i hwhite
      cases heq : visit g (g.nodes.length + 1) v st with
      | ok st3 =>
        rw [heq] at h
        obtain ⟨hinv3, hbord3, hv3⟩ :=
          (dfs_ok g hwf (g.nodes.length + 1)).1 v st st3 hinv hbord
            (hbounds v (by simp)) hwhite heq
        obtain ⟨hg3, d1, hd1⟩ := (dfs_shape g (g.nodes.length + 1)).1 v st st3 heq
        have hgray3 : st3.gray = [] := by rw [hg3, hgray]
        obtain ⟨h1, h2, h3, h4, d2, hd2⟩ :=
          ih st3 st2 hinv3 hbord3 hgray3 (fun w hw => hbounds w (by simp [hw])) h
        refine ⟨h1, h2, h3, ?_, d1 ++ d2, by rw [hd2, hd1, List.append_assoc]⟩
        intro w hw
        rcases List.mem_cons.1 hw with hwv | hwvs
        · rw [hd2, hwv]
          exact List.mem_append_left _ hv3
        · exact h4 w hwvs
      | cycle s t =>
        rw [heq] at h
        exact absurd h (by simp)
      | fuelOut =>
        rw [heq] at h
        exact absurd h (by simp)

/-- The outer loop never exhausts its fuel on a well-formed graph. -/
theorem runAll_no_fuel (g : PackageGraph) (hwf : Wf g) :
    ∀ (l : List Nat) (st : St), Inv g st → BOrd g st → st.gray = [] →
      (∀ v ∈ l, v < g.nodes.length) → runAll g l st ≠ .fuelOut := by
  intro l
  induction l with
  | nil =>
    intro st _ _ _ _
    rw [runAll]
    simp
  | cons v vs ih =>
    intro st hinv hbord hgray hbounds
    rw [runAll]
    split
    · exact ih st hinv hbord hgray (fun w hw => hbounds w (by simp [hw]))
    · rename_i hwhite
      cases heq : visit g (g.nodes.length + 1) v st with
      | ok st3 =>
        obtain ⟨hinv3, hbord3, -⟩ :=
          (dfs_ok g hwf (g.nodes.length + 1)).1 v st st3 hinv hbord
            (hbounds v (by simp)) hwhite heq
        obtain ⟨hg3, -⟩ := (dfs_shape g (g.nodes.length + 1)).1 v st st3 heq
        exact ih st3 hinv3 hbord3 (by rw [hg3, hgray])
          (fun w hw => hbounds w (by simp [hw]))
      | cycle s t => simp
      | fuelOut =>
        have hle : g.nodes.length + 1 ≤ (g.nodes.length + 1) + st.gray.length := by
          omega
        exact absurd heq
          ((dfs_fuel g hwf (g.nodes.length + 1)).1 v st hinv hbord
            (hbounds v (by simp)) hwhite hle)

/-- If the outer loop reports a back edge, the graph has a cycle. -/
theorem runAll_cycle (g : PackageGraph) :
    ∀ (l : List Nat) (st : St) (a b : Nat), st.gray = [] →
      runAll g l st = .cycle a b → HasCycle g := by
  intro l
  induction l with
  | nil =>
    intro st a b _ h
    rw [runAll] at h
    exact absurd h (by simp)
  | cons v vs ih =>
    intro st a b hgray h
    rw [runAll] at h
    split at h
    · exact ih st a b hgray h
    · cases heq : visit g (g.nodes.length + 1) v st with
      | ok st3 =>
        rw [heq] at h
        obtain ⟨hg3, -⟩ := (dfs_shape g (g.nodes.length + 1)).1 v st st3 heq
        exact ih st3 a b (by rw [hg3, hgray]) h
      | cycle s t =>
        have hGI : GInv g st v := by
          intro w hw
          rw [hgray] at hw
          exact absurd hw (by simp)
        exact (dfs_cycle g (g.nodes.length + 1)).1 v st s t hGI heq
      | fuelOut =>
        rw [heq] at h
        exact absurd h (by simp)

/-- Walking along edges strictly decreases the finish-order rank. -/
theorem rank_lt_of_path (g : PackageGraph) (st2 : St) (hb : BOrd g st2) :
    ∀ (l : List Nat) (a c : Nat), a ∈ st2.black → pathList g a (l ++ [c]) →
      c ∈ st2.black ∧ st2.black.indexOf c < st2.black.indexOf a := by
  intro l
  induction l with
  | nil =>
    intro a c ha hp
    exact hb a ha c hp.1
  | cons x l ih =>
    intro a c ha hp
    obtain ⟨hax, hrest⟩ := hp
    obtain ⟨hx, hlt1⟩ := hb a ha x hax
    obtain ⟨hc, hlt2⟩ := ih x c hx hrest
    exact ⟨hc, hlt2.trans hlt1⟩

/-- A state whose black list covers all nodes in finish order admits no
cycle. -/
theorem no_cycle_of_bord (g : PackageGraph) (hwf : Wf g) (st2 : St)
    (hb : BOrd g st2) (hcov : ∀ v, v < g.nodes.length → v ∈ st2.black) :
    ¬ HasCycle g := by
  rintro ⟨a, l, hp⟩
  have han : a < g.nodes.length := by
    cases l with
    | nil =>
      obtain ⟨⟨r, hr⟩, -⟩ := hp
      exact (hwf _ hr).1
    | cons x l' =>
      obtain ⟨⟨r, hr⟩, -⟩ := hp
      exact (hwf _ hr).1
  obtain ⟨-, hlt⟩ := rank_lt_of_path g st2 hb l a a (hcov a han) hp
  omega

/-- C1. For every SBOM identifier and every well-formed `PackageGraph`,
the cycle guard `acyclic(id, graph)` returns `true` if and only if the
graph contains no directed cycle: the depth-first traversal started from
every node identifier (covering disconnected components) reports a back
edge (and short-circuits) exactly when a directed cycle exists. -/
theorem acyclic_iff_no_cycle (id : String) (g : PackageGraph) (hwf : Wf g) :
    acyclic id g = true ↔ ¬ HasCycle g := by
  have hinv0 : Inv g ⟨[], []⟩ := ⟨by simp, by simp, by simp⟩
  have hbord0 : BOrd g ⟨[], []⟩ := by
    intro a ha
    exact absurd ha (by simp)
  have hbounds : ∀ v ∈ List.range g.nodes.length, v < g.nodes.length := by
    intro v hv
    exact List.mem_range.1 hv
  unfold acyclic
  cases hr : dfsRun g with
  | ok st2 =>
    obtain ⟨-, hbord2, -, hcov2, -⟩ :=
      runAll_ok g hwf (List.range g.nodes.length) ⟨[], []⟩ st2 hinv0 hbord0 rfl hbounds hr
    have hnc : ¬ HasCycle g :=
      no_cycle_of_bord g hwf st2 hbord2
        (fun v hv => hcov2 v (List.mem_range.2 hv))
    simpa using hnc
  | cycle a b =>
    have hc : HasCycle g :=
      runAll_cycle g (List.range g.nodes.length) ⟨[], []⟩ a b rfl hr
    simpa using hc
  | fuelOut =>
    exact absurd hr
      (runAll_no_fuel g hwf (List.range g.nodes.length) ⟨[], []⟩ hinv0 hbord0 rfl hbounds)

/-- C6. The component-reference matcher: `Id` matches exactly on
`node_id` equality, `Name` on exact name equality, `Purl`/`Cpe` on set
membership in a package node's purl/cpe sets, and non-package nodes never
match a `Purl` or `Cpe` query. -/
theorem filter_component_reference (g : PackageGraph) (i : Nat) :
    (∀ s, filterMatch g (.component (.id s)) i = true ↔
      ∃ w, g.nodeWeight i = some w ∧ w.nodeId = s) ∧
    (∀ s, filterMatch g (.component (.name s)) i = true ↔
      ∃ w, g.nodeWeight i = some w ∧ w.name = s) ∧
    (∀ s, filterMatch g (.component (.purl s)) i = true ↔
      ∃ w, g.nodeWeight i = some w ∧ w.isPackage = true ∧ s ∈ w.purls) ∧
    (∀ s, filterMatch g (.component (.cpe s)) i = true ↔
      ∃ w, g.nodeWeight i = some w ∧ w.isPackage = true ∧ s ∈ w.cpes) ∧
    (∀ s w, g.nodeWeight i = some w → w.isPackage = false →
      filterMatch g (.component (.purl s)) i = false ∧
      filterMatch g (.component (.cpe s)) i = false) := by
  refine ⟨?_, ?_, ?_, ?_, ?_⟩
  · intro s
    cases hw : g.nodeWeight i with
    | none => simp [filterMatch, hw]
    | some w => simp [filterMatch, hw]
  · intro s
    cases hw : g.nodeWeight i with
    | none => simp [filterMatch, hw]
    | some w => simp [filterMatch, hw]
  · intro s
    cases hw : g.nodeWeight i with
    | none => simp [filterMatch, hw]
    | some w =>
      cases w <;> simp [filterMatch, hw, GNode.isPackage, GNode.purls]
  · intro s
    cases hw : g.nodeWeight i with
    | none => simp [filterMatch, hw]
    | some w =>
      cases w <;> simp [filterMatch, hw, GNode.isPackage, GNode.cpes]
  · intro s w hw hpkg
    cases w <;> simp_all [filterMatch, hw, GNode.isPackage]

/-- C7. The generic filter query is evaluated as the expression's
`apply` over the per-node field context; that context always binds
`sbom_id`, `node_id`, `name`, additionally binds `version`, `purl`, `cpe`
for package nodes and `external_document_reference`, `external_node_id` for
external nodes, and binds nothing else for other variants. -/
theorem filter_query_context (g : PackageGraph) (i : Nat) (e : Expr) :
    (filterMatch g (.query e) i =
      (g.nodeWeight i).elim false (fun w => e.apply (queryContext w))) ∧
    (∀ w : GNode,
      (queryContext w).lookup "sbom_id" = some (Value.str w.sbomId) ∧
      (queryContext w).lookup "node_id" = some (Value.str w.nodeId) ∧
      (queryContext w).lookup "name" = some (Value.str w.name)) ∧
    (∀ b version purl cpe,
      (queryContext (.package b version purl cpe)).lookup "version"
          = some (Value.str version) ∧
      (queryContext (.package b version purl cpe)).lookup "purl"
          = some (Value.strs purl) ∧
      (queryContext (.package b version purl cpe)).lookup "cpe"
          = some (Value.strs cpe)) ∧
    (∀ b edr eni,
      (queryContext (.external b edr eni)).lookup "external_document_reference"
          = some (Value.str edr) ∧
      (queryContext (.external b edr eni)).lookup "external_node_id"
          = some (Value.str eni)) ∧
    (∀ b, queryContext (.other b) =
      [("sbom_id", Value.str b.sbomId),
       ("node_id", Value.str b.nodeId),
       ("name", Value.str b.name)]) := by
  refine ⟨rfl, ?_, ?_, ?_, ?_⟩
  · intro w
    cases w <;> simp [queryContext, List.lookup]
  · intro b version purl cpe
    simp [queryContext, List.lookup]
  · intro b edr eni
    simp [queryContext, List.lookup]
  · intro b
    simp [queryContext, GNode.sbomId, GNode.nodeId, GNode.name, GNode.base]

/-- C10. `resolve_external_sbom` is total over `Option` and never
surfaces an error: it behaves identically on a connection and on its
error-masked version, so a `DbErr` in any of its seven lookups is
indistinguishable from an ordinary resolution miss (`Ok(None)`) and is
never propagated to the caller. -/
theorem resolve_error_masked (c : Conn) (nid : String) :
    resolveExternalSbom (maskConn c) nid = resolveExternalSbom c nid := by
  have e1 : ∀ v, (maskConn c).findSbomBySha256 v =
      match c.findSbomBySha256 v with | .error _ => .ok none | r => r := fun _ => rfl
  have e2 : ∀ d, (maskConn c).findSbomByDocId d =
      match c.findSbomByDocId d with | .error _ => .ok none | r => r := fun _ => rfl
  have e3 : ∀ n, (maskConn c).findChecksumByNodeId n =
      match c.findChecksumByNodeId n with | .error _ => .ok none | r => r := fun _ => rfl
  have e4 : ∀ s v, (maskConn c).findChecksumByValueExcl s v =
      match c.findChecksumByValueExcl s v with | .error _ => .ok none | r => r :=
    fun _ _ => rfl
  have e5 : ∀ n, (maskConn c).findPackageByNodeId n =
      match c.findPackageByNodeId n with | .error _ => .ok none | r => r := fun _ => rfl
  have e6 : ∀ s v, (maskConn c).findPackageByVersionExcl s v =
      match c.findPackageByVersionExcl s v with | .error _ => .ok none | r => r :=
    fun _ _ => rfl
  unfold resolveExternalSbom
  have e0 : (maskConn c).findExternalNode nid =
      match c.findExternalNode nid with | .error _ => .ok none | r => r := rfl
  rw [e0]
  cases c.findExternalNode nid with
  | error err => rfl
  | ok o =>
    cases o with
    | none => rfl
    | some e =>
      obtain ⟨enid, ety, edoc, eref, edt, edv⟩ := e
      cases ety with
      | spdx =>
        cases edv with
        | none => rfl
        | some dv =>
          dsimp only
          by_cases hdv : dv = ""
          · simp [hdv]
          · simp only [if_neg hdv]
            cases edt with
            | none => rfl
            | some dt =>
              cases dt with
              | sha256 =>
                rw [e1]
                cases c.findSbomBySha256 dv with
                | error err => rfl
                | ok o2 => cases o2 <;> rfl
              | sha384 => rfl
              | sha512 => rfl
      | cycloneDx =>
        cases edv with
        | none => rfl
        | some dv =>
          dsimp only
          by_cases hdv : dv = ""
          · simp [hdv]
          · simp only [if_neg hdv]
            rw [e2]
            cases c.findSbomByDocId ("urn:cdx:" ++ edoc ++ "/" ++ dv) with
            | error err => rfl
            | ok o2 => cases o2 <;> rfl
      | redHatProductComponent =>
        dsimp only
        rw [e3]
        cases c.findChecksumByNodeId eref with
        | error err =>
          dsimp only
          rw [e5]
          cases c.findPackageByNodeId eref with
          | error err2 => rfl
          | ok o2 =>
            cases o2 with
            | none => rfl
            | some iv =>
              dsimp only
              rw [e6]
              cases c.findPackageByVersionExcl iv.sbomId iv.version with
              | error err3 => rfl
              | ok o3 => cases o3 <;> rfl
        | ok o1 =>
          cases o1 with
          | none =>
            dsimp only
            rw [e5]
            cases c.findPackageByNodeId eref with
            | error err2 => rfl
            | ok o2 =>
              cases o2 with
              | none => rfl
              | some iv =>
                dsimp only
                rw [e6]
                cases c.findPackageByVersionExcl iv.sbomId iv.version with
                | error err3 => rfl
                | ok o3 => cases o3 <;> rfl
          | some ent =>
            dsimp only
            rw [e4]
            cases c.findChecksumByValueExcl ent.sbomId ent.value with
            | error err2 => rfl
            | ok o2 => cases o2 <;> rfl

/-- C4. SPDX external references resolve exactly when the discriminator
type is `Sha256`, the discriminator value is present and non-empty, and a
source document with that checksum exists; the resolution pairs the found
SBOM's id with the reference's `external_node_ref`.  Any other
discriminator type, a missing or empty value, or a missing document yields
`None`. -/
theorem resolve_spdx (db : Db) (nid : String) (e : ExternalNodeRow)
    (hfind : db.externalNodes.find? (fun r => r.nodeId == nid) = some e)
    (hty : e.externalType = .spdx) :
    ((resolveExternalSbom db.conn nid).isSome ↔
      (e.discriminatorType = some .sha256 ∧
        ∃ v, e.discriminatorValue = some v ∧ v ≠ "" ∧
          (db.sboms.find? (fun r => r.sourceSha256 == some v)).isSome)) ∧
    (∀ r, resolveExternalSbom db.conn nid = some r →
      ∃ s v, e.discriminatorValue = some v ∧
        db.sboms.find? (fun r2 => r2.sourceSha256 == some v) = some s ∧
        r = ⟨s.sbomId, e.externalNodeRef⟩) := by
  have h0 : db.conn.findExternalNode nid = .ok (some e) :=
    show Except.ok (db.externalNodes.find? (fun r => r.nodeId == nid)) = .ok (some e) by
      rw [hfind]
  unfold resolveExternalSbom
  rw [h0]
  dsimp only
  rw [hty]
  dsimp only
  cases hdv : e.discriminatorValue with
  | none => simp
  | some dv =>
    dsimp only
    by_cases hdve : dv = ""
    · simp [hdve]
    · simp only [if_neg hdve]
      cases hdt : e.discriminatorType with
      | none => simp
      | some dt =>
        cases dt with
        | sha256 =>
          have h1 : db.conn.findSbomBySha256 dv =
              .ok (db.sboms.find? (fun r => r.sourceSha256 == some dv)) := rfl
          rw [h1]
          cases hfs : db.sboms.find? (fun r => r.sourceSha256 == some dv) with
          | none =>
            simp [hdv, hdve, hfs]
            intro x hx
            simpa using List.find?_eq_none.1 hfs x hx
          | some s =>
            constructor
            · simp [hdt, hdv, hdve, hfs]
              exact ⟨s, List.mem_of_find?_eq_some hfs, by simpa using List.find?_some hfs⟩
            · intro r hr
              dsimp only at hr
              exact ⟨s, dv, rfl, hfs, (Option.some_injective _ hr).symm⟩
        | sha384 => simp [hdt]
        | sha512 => simp [hdt]

/-- C5. CycloneDX external references with a present, non-empty
discriminator value are resolved by looking up the SBOM whose document id
is exactly `urn:cdx:<external_doc_ref>/<discriminator_value>`, pairing the
found SBOM's id with the reference's `external_node_ref`; a missing or
empty discriminator value yields no resolution. -/
theorem resolve_cyclonedx (db : Db) (nid : String) (e : ExternalNodeRow)
    (hfind : db.externalNodes.find? (fun r => r.nodeId == nid) = some e)
    (hty : e.externalType = .cycloneDx) :
    (∀ v, e.discriminatorValue = some v → v ≠ "" →
      resolveExternalSbom db.conn nid =
        (db.sboms.find? (fun r =>
          r.documentId == ("urn:cdx:" ++ e.externalDocRef ++ "/" ++ v))).map
          (fun s => ⟨s.sbomId, e.externalNodeRef⟩)) ∧
    ((e.discriminatorValue = none ∨ e.discriminatorValue = some "") →
      resolveExternalSbom db.conn nid = none) := by
  have h0 : db.conn.findExternalNode nid = .ok (some e) :=
    show Except.ok (db.externalNodes.find? (fun r => r.nodeId == nid)) = .ok (some e) by
      rw [hfind]
  unfold resolveExternalSbom
  rw [h0]
  dsimp only
  rw [hty]
  dsimp only
  constructor
  · intro v hv hve
    rw [hv]
    dsimp only
    rw [if_neg hve]
    have h1 : db.conn.findSbomByDocId ("urn:cdx:" ++ e.externalDocRef ++ "/" ++ v) =
        .ok (db.sboms.find? (fun r =>
          r.documentId == ("urn:cdx:" ++ e.externalDocRef ++ "/" ++ v))) := rfl
    rw [h1]
    cases db.sboms.find? (fun r =>
        r.documentId == ("urn:cdx:" ++ e.externalDocRef ++ "/" ++ v)) with
    | none => rfl
    | some s => rfl
  · intro hv
    rcases hv with hv | hv <;> rw [hv] <;> simp

/-- C9. A successfully resolved vendor-variant (RedHatProductComponent)
reference always lands in a different SBOM than the matched source row: the
checksum step only accepts rows with `sbom_id ≠` the reference's checksum
row's `sbom_id`, and the version step only accepts rows with `sbom_id ≠`
the reference's package row's `sbom_id`. -/
theorem resolve_rh_cross_sbom (db : Db) (nid : String) (e : ExternalNodeRow)
    (hfind : db.externalNodes.find? (fun r => r.nodeId == nid) = some e)
    (hty : e.externalType = .redHatProductComponent) :
    ∀ r, resolveExternalSbom db.conn nid = some r →
      (∀ ent, db.checksums.find? (fun c => c.nodeId == e.externalNodeRef) = some ent →
        r.sbomId ≠ ent.sbomId) ∧
      (db.checksums.find? (fun c => c.nodeId == e.externalNodeRef) = none →
        ∀ iv, db.packages.find? (fun p => p.nodeId == e.externalNodeRef) = some iv →
          r.sbomId ≠ iv.sbomId) := by
  have h0 : db.conn.findExternalNode nid = .ok (some e) :=
    show Except.ok (db.externalNodes.find? (fun r => r.nodeId == nid)) = .ok (some e) by
      rw [hfind]
  unfold resolveExternalSbom
  rw [h0]
  dsimp only
  rw [hty]
  dsimp only
  have h1 : db.conn.findChecksumByNodeId e.externalNodeRef =
      .ok (db.checksums.find? (fun c => c.nodeId == e.externalNodeRef)) := rfl
  rw [h1]
  cases hcs : db.checksums.find? (fun c => c.nodeId == e.externalNodeRef) with
  | some ent =>
    dsimp only
    have h2 : db.conn.findChecksumByValueExcl ent.sbomId ent.value =
        .ok (db.checksums.find? (fun m => m.sbomId != ent.sbomId && m.value == ent.value)) :=
      rfl
    rw [h2]
    cases hm : db.checksums.find? (fun m => m.sbomId != ent.sbomId && m.value == ent.value) with
    | none => intro r hr; exact absurd hr (by simp)
    | some m =>
      intro r hr
      have hpred := List.find?_some hm
      simp only [Bool.and_eq_true, bne_iff_ne, beq_iff_eq] at hpred
      have hrm : r = ⟨m.sbomId, m.nodeId⟩ := (Option.some_injective _ hr).symm
      constructor
      · intro ent2 hent2
        cases hent2
        rw [hrm]
        exact hpred.1
      · intro hnone
        exact absurd hnone (by simp)
  | none =>
    dsimp only
    have h3 : db.conn.findPackageByNodeId e.externalNodeRef =
        .ok (db.packages.find? (fun p => p.nodeId == e.externalNodeRef)) := rfl
    rw [h3]
    cases hpk : db.packages.find? (fun p => p.nodeId == e.externalNodeRef) with
    | none => intro r hr; exact absurd hr (by simp)
    | some iv =>
      dsimp only
      have h4 : db.conn.findPackageByVersionExcl iv.sbomId iv.version =
          .ok (db.packages.find? (fun m => m.sbomId != iv.sbomId && m.version == iv.version)) :=
        rfl
      rw [h4]
      cases hm : db.packages.find? (fun m => m.sbomId != iv.sbomId && m.version == iv.version) with
      | none => intro r hr; exact absurd hr (by simp)
      | some m =>
        intro r hr
        have hpred := List.find?_some hm
        simp only [Bool.and_eq_true, bne_iff_ne, beq_iff_eq] at hpred
        have hrm : r = ⟨m.sbomId, m.nodeId⟩ := (Option.some_injective _ hr).symm
        constructor
        · intro ent2 hent2
          exact absurd hent2 (by simp)
        · intro _ iv2 hiv2
          cases hiv2
          rw [hrm]
          exact hpred.1

/-- C3 (counterexample). On `rhFallbackDb` the checksum step produces
no match, so the claim as stated prescribes the version fallback (which
resolves to sbom `B`, node `y`); the source instead returns nothing,
because it only falls back when the *first* checksum lookup (the
reference's own checksum row) misses. -/
theorem resolve_rh_fallback_counterexample :
    resolveExternalSbom rhFallbackDb.conn "e3" = none ∧
    resolveExternalSbomSpecRH rhFallbackDb "e3" = some ⟨"B", "y"⟩ :=
  ⟨rfl, rfl⟩

/-- C3 (amended). Vendor-variant resolution characterized as the source
implements it: if a checksum row for the reference's node exists, the
result is the cross-SBOM checksum match (or nothing — no version fallback);
only when the reference's checksum-row lookup misses does it try the
package-version fallback; if that also fails to produce a cross-SBOM
match, the resolver returns nothing. -/
theorem resolve_rh_characterization (db : Db) (nid : String) (e : ExternalNodeRow)
    (hfind : db.externalNodes.find? (fun r => r.nodeId == nid) = some e)
    (hty : e.externalType = .redHatProductComponent) :
    resolveExternalSbom db.conn nid =
      match db.checksums.find? (fun c => c.nodeId == e.externalNodeRef) with
      | some ent =>
        (db.checksums.find?
          (fun m => m.sbomId != ent.sbomId && m.value == ent.value)).map
          (fun m => ⟨m.sbomId, m.nodeId⟩)
      | none =>
        match db.packages.find? (fun p => p.nodeId == e.externalNodeRef) with
        | some iv =>
          (db.packages.find?
            (fun m => m.sbomId != iv.sbomId && m.version == iv.version)).map
            (fun m => ⟨m.sbomId, m.nodeId⟩)
        | none => none := by
  have h0 : db.conn.findExternalNode nid = .ok (some e) :=
    show Except.ok (db.externalNodes.find? (fun r => r.nodeId == nid)) = .ok (some e) by
      rw [hfind]
  unfold resolveExternalSbom
  rw [h0]
  dsimp only
  rw [hty]
  dsimp only
  have h1 : db.conn.findChecksumByNodeId e.externalNodeRef =
      .ok (db.checksums.find? (fun c => c.nodeId == e.externalNodeRef)) := rfl
  rw [h1]
  cases hcs : db.checksums.find? (fun c => c.nodeId == e.externalNodeRef) with
  | some ent =>
    dsimp only
    have h2 : db.conn.findChecksumByValueExcl ent.sbomId ent.value =
        .ok (db.checksums.find?
          (fun m => m.sbomId != ent.sbomId && m.value == ent.value)) := rfl
    rw [h2]
    cases db.checksums.find? (fun m => m.sbomId != ent.sbomId && m.value == ent.value) with
    | none => rfl
    | some m => rfl
  | none =>
    dsimp only
    have h3 : db.conn.findPackageByNodeId e.externalNodeRef =
        .ok (db.packages.find? (fun p => p.nodeId == e.externalNodeRef)) := rfl
    rw [h3]
    cases db.packages.find? (fun p => p.nodeId == e.externalNodeRef) with
    | none => rfl
    | some iv =>
      dsimp only
      have h4 : db.conn.findPackageByVersionExcl iv.sbomId iv.version =
          .ok (db.packages.find?
            (fun m => m.sbomId != iv.sbomId && m.version == iv.version)) := rfl
      rw [h4]
      cases db.packages.find? (fun m => m.sbomId != iv.sbomId && m.version == iv.version) with
      | none => rfl
      | some m => rfl

/-- Witness for the amended C3 theorem at `rhFallbackDb`: the checksum row
exists and the cross-SBOM checksum lookup misses, so the resolution is
nothing even though the version fallback would match. -/
theorem resolve_rh_characterization_witness :
    rhFallbackDb.externalNodes.find? (fun r => r.nodeId == "e3") =
        some ⟨"e3", .redHatProductComponent, "", "x", none, none⟩ ∧
    (⟨"e3", .redHatProductComponent, "", "x", none, none⟩ : ExternalNodeRow).externalType
        = .redHatProductComponent ∧
    resolveExternalSbom rhFallbackDb.conn "e3" =
      match rhFallbackDb.checksums.find? (fun c => c.nodeId == "x") with
      | some ent =>
        (rhFallbackDb.checksums.find?
          (fun m => m.sbomId != ent.sbomId && m.value == ent.value)).map
          (fun m => ⟨m.sbomId, m.nodeId⟩)
      | none =>
        match rhFallbackDb.packages.find? (fun p => p.nodeId == "x") with
        | some iv =>
          (rhFallbackDb.packages.find?
            (fun m => m.sbomId != iv.sbomId && m.version == iv.version)).map
            (fun m => ⟨m.sbomId, m.nodeId⟩)
        | none => none :=
  ⟨rfl, rfl,
    resolve_rh_characterization rhFallbackDb "e3"
      ⟨"e3", .redHatProductComponent, "", "x", none, none⟩ rfl rfl⟩

/-- Witness for C4 at `spdxDb`. -/
theorem resolve_spdx_witness :
    spdxDb.externalNodes.find? (fun r => r.nodeId == "ext1") =
        some ⟨"ext1", .spdx, "docA", "nodeRef1", some .sha256, some "abc"⟩ ∧
    (((resolveExternalSbom spdxDb.conn "ext1").isSome ↔
      ((some DiscriminatorType.sha256 : Option DiscriminatorType) = some .sha256 ∧
        ∃ v, (some "abc" : Option String) = some v ∧ v ≠ "" ∧
          (spdxDb.sboms.find? (fun r => r.sourceSha256 == some v)).isSome)) ∧
    (∀ r, resolveExternalSbom spdxDb.conn "ext1" = some r →
      ∃ s v, (some "abc" : Option String) = some v ∧
        spdxDb.sboms.find? (fun r2 => r2.sourceSha256 == some v) = some s ∧
        r = ⟨s.sbomId, "nodeRef1"⟩)) :=
  ⟨rfl,
    resolve_spdx spdxDb "ext1"
      ⟨"ext1", .spdx, "docA", "nodeRef1", some .sha256, some "abc"⟩ rfl rfl⟩

/-- Witness for C5 at `cdxDb`. -/
theorem resolve_cyclonedx_witness :
    cdxDb.externalNodes.find? (fun r => r.nodeId == "ext2") =
        some ⟨"ext2", .cycloneDx, "docB", "nodeRef2", none, some "1"⟩ ∧
    ((∀ v, (some "1" : Option String) = some v → v ≠ "" →
      resolveExternalSbom cdxDb.conn "ext2" =
        (cdxDb.sboms.find? (fun r =>
          r.documentId == ("urn:cdx:" ++ "docB" ++ "/" ++ v))).map
          (fun s => ⟨s.sbomId, "nodeRef2"⟩)) ∧
    (((some "1" : Option String) = none ∨ (some "1" : Option String) = some "") →
      resolveExternalSbom cdxDb.conn "ext2" = none)) :=
  ⟨rfl,
    resolve_cyclonedx cdxDb "ext2"
      ⟨"ext2", .cycloneDx, "docB", "nodeRef2", none, some "1"⟩ rfl rfl⟩

/-- Witness for C9 at `rhCrossDb` (the resolution lands in sbom `B`,
distinct from the source row's sbom `A`). -/
theorem resolve_rh_cross_sbom_witness :
    rhCrossDb.externalNodes.find? (fun r => r.nodeId == "eRH") =
        some ⟨"eRH", .redHatProductComponent, "", "x", none, none⟩ ∧
    resolveExternalSbom rhCrossDb.conn "eRH" = some ⟨"B", "y"⟩ ∧
    ((∀ ent, rhCrossDb.checksums.find? (fun c => c.nodeId == "x") = some ent →
        (⟨"B", "y"⟩ : ResolvedSbom).sbomId ≠ ent.sbomId) ∧
      (rhCrossDb.checksums.find? (fun c => c.nodeId == "x") = none →
        ∀ iv, rhCrossDb.packages.find? (fun p => p.nodeId == "x") = some iv →
          (⟨"B", "y"⟩ : ResolvedSbom).sbomId ≠ iv.sbomId)) :=
  ⟨rfl, rfl,
    resolve_rh_cross_sbom rhCrossDb "eRH"
      ⟨"eRH", .redHatProductComponent, "", "x", none, none⟩ rfl rfl ⟨"B", "y"⟩ rfl⟩

/-- C2 (counterexample). Sbom `B`'s graph is in scope and contains a
back edge, yet `retrieve` returns a result whose nested expansion contains
nodes of `B`: the cycle guard removes `B` from matching and top-level
expansion, but the expansion of acyclic `A` crosses the external reference
`a2`, resolves it into `B`, and emits `B`'s nodes — so "no node of that
graph appears in the returned paginated results" is false as stated. -/
theorem retrieve_includes_cyclic_graph_node :
    HasCycle gB ∧ ("B", gB) ∈ cycleScope ∧
    (match retrieve (.ok cycleScope) (.component (.id "a1"))
        ⟨0, 3, []⟩ ⟨0, 10⟩ cycleDb [("B", gB)] with
     | .ok res => nodesMentionSbom res.items "B"
     | .error _ => false) = true :=
  ⟨⟨0, [1], ⟨.dependsOn, by decide⟩, ⟨.dependsOn, by decide⟩, trivial⟩,
    by decide, by decide⟩

/-- C2 (amended). An element appears in the collected component list
exactly when it is created from a node of an *acyclic* in-scope graph that
matches the query: cyclic graphs are wholly excluded from matching and
top-level expansion before anything else happens, and the request proceeds
with the remaining graphs. -/
theorem collect_graph_admission (q : GraphQuery)
    (graphs : List (String × PackageGraph))
    (create : PackageGraph → Nat → GNode → Node) (x : Node) :
    x ∈ collectGraph q graphs create ↔
      ∃ idg g i w, (idg, g) ∈ graphs ∧ acyclic idg g = true ∧
        filterMatch g q i = true ∧ g.nodeWeight i = some w ∧
        x = create g i w := by
  unfold collectGraph
  simp only [List.mem_flatMap, List.mem_filter, List.mem_filterMap, List.mem_range,
    Option.map_eq_some']
  constructor
  · rintro ⟨⟨idg, g⟩, ⟨hmem, hacy⟩, i, ⟨hi, hfil⟩, w, hw, hx⟩
    exact ⟨idg, g, i, w, hmem, hacy, hfil, hw, hx.symm⟩
  · rintro ⟨idg, g, i, w, hmem, hacy, hfil, hw, hx⟩
    have hi : i < g.nodes.length := by
      by_contra hno
      unfold PackageGraph.nodeWeight at hw
      rw [List.get?_eq_none.2 (Nat.le_of_not_lt hno)] at hw
      exact absurd hw (by simp)
    exact ⟨(idg, g), ⟨hmem, hacy⟩, i, ⟨hi, hfil⟩, w, hw, hx.symm⟩

/-- C8. `retrieve` and `retrieve_single` return an error exactly when
the data-access load fails: for a successful load, the rest of the request
(cycle-guard filtering, matching, expansion — where resolution misses and
malformed data are skipped, not raised — and pagination) is total, so the
call succeeds regardless of cyclic graphs or unresolvable references in
scope. -/
theorem retrieve_error_iff_load_error
    (load loadS : Except Unit (List (String × PackageGraph)))
    (q qS : GraphQuery) (o oS : QueryOptions) (p pS : Paginated)
    (db dbS : Db) (cache cacheS : List (String × PackageGraph)) (sid : String) :
    ((retrieve load q o p db cache).isOk = load.isOk) ∧
    ((retrieveSingle sid loadS qS oS pS dbS cacheS).isOk = loadS.isOk) := by
  constructor
  · cases load <;> rfl
  · cases loadS <;> rfl

/-- Witness for C1 at a concrete well-formed graph (two package nodes, one
dependency edge; the guard accepts it and it has no cycle). -/
theorem acyclic_iff_no_cycle_witness :
    Wf (PackageGraph.mk
      [.package ⟨"a", "n1", "p1"⟩ "1" [] [], .package ⟨"a", "n2", "p2"⟩ "1" [] []]
      [(0, .dependsOn, 1)])
    ∧ (acyclic "a" (PackageGraph.mk
      [.package ⟨"a", "n1", "p1"⟩ "1" [] [], .package ⟨"a", "n2", "p2"⟩ "1" [] []]
      [(0, .dependsOn, 1)]) = true
      ↔ ¬ HasCycle (PackageGraph.mk
      [.package ⟨"a", "n1", "p1"⟩ "1" [] [], .package ⟨"a", "n2", "p2"⟩ "1" [] []]
      [(0, .dependsOn, 1)])) :=
  ⟨by decide, acyclic_iff_no_cycle "a" _ (by decide)⟩

end Trustify
